import Mathlib

/-!
Shallow embedding of the octopod integration-test orchestration engine
(src/octopod), a Rust crate that provisions ephemeral podman networks and
containers per test, runs test futures, records per-resource rollback
entries in a ledger, and reports outcomes.

Modelling conventions:
* backend (podman API) calls are abstracted as an oracle
  `Backend := Nat → Except String String`: the n-th fallible backend call
  of a run either succeeds (with an identifier payload) or errors;
* client-side `Uuid::new_v4()` fresh-name generation is abstracted as an
  oracle `Nat → String` indexed by the same call counter;
* a test future's observable behaviour (its `tokio::spawn` join result and
  the log entries the select loop receives before it completes) is
  abstracted as data attached to the test, since real concurrency and
  wall-clock time are outside the embedding;
* `eprintln!` / `println!` output is modelled as returned event or report
  lines rather than I/O.
All data definitions follow src/octopod/src/{lib,resource,driver,emitter}.rs;
the file service.rs is not declared in lib.rs's module tree and is dead code,
so `ServiceConfig` follows the definition in lib.rs (no health field).
-/

namespace Octopod

/-- Network handle (lib.rs `struct Network`): holds the generated network name. -/
structure Network where
  name : String
deriving DecidableEq

/-- Service configuration (lib.rs `struct ServiceConfig`): name, image
reference and environment pairs. -/
structure ServiceConfig where
  name : String
  image : String
  env : List (String × String)
deriving DecidableEq

/-- Service handle (lib.rs `struct Service`). The `driver` field of the Rust
struct is a clone of the backend client handle and carries no data the
claims depend on, so it is omitted. -/
structure Service where
  name : String
  net : Network
  id : String
deriving DecidableEq

/-- Closed variant of teardown-able resources: resource.rs implements the
`Resource` trait exactly for `Service` and `Network`. -/
inductive Resource where
  | network (net : Network)
  | service (svc : Service)
deriving DecidableEq

/-- The resource ledger (resource.rs `struct Resources`): an append-ordered
list of provisioned resources. -/
structure Resources where
  resources : List Resource
deriving DecidableEq

/-- `Resources::register` (resource.rs): pushes the resource at the end of
the internal ordered list. -/
def Resources.register (r : Resources) (x : Resource) : Resources :=
  ⟨r.resources ++ [x]⟩

/-- Body of the `for resource in self.resources.into_iter().rev()` loop of
`Resources::cleanup` (resource.rs): each resource's `free` is attempted; an
`Err(e)` is reported (`eprintln!`) and recorded here as `some e`, and the
loop continues with the remaining resources. The teardown backend call is
abstracted as `free`. -/
def cleanupLoop (free : Resource → Except String Unit) :
    List Resource → List (Resource × Option String)
  | [] => []
  | x :: rest =>
    match free x with
    | .ok _ => (x, none) :: cleanupLoop free rest
    | .error e => (x, some e) :: cleanupLoop free rest

/-- `Resources::cleanup` (resource.rs): consumes the ledger, iterating over
the registered resources in reverse order; returns the trace of teardown
attempts paired with the reported error, if any. The function is total (it
returns the full attempt trace and never raises). -/
def Resources.cleanup (r : Resources) (free : Resource → Except String Unit) :
    List (Resource × Option String) :=
  cleanupLoop free r.resources.reverse

theorem cleanupLoop_eq_map (free : Resource → Except String Unit) (l : List Resource) :
    cleanupLoop free l = l.map
      (fun x => (x, match free x with | .ok _ => none | .error e => some e)) := by
  induction l with
  | nil => rfl
  | cons x rest ih =>
    cases h : free x <;> simp [cleanupLoop, h, ih]

/-- Claim C3: for a ledger with resources registered in order r1, ..., rn,
`cleanup` attempts teardown exactly once per resource, in exact reverse
order rn, ..., r1, for every teardown oracle `free` — in particular the
attempt sequence is the full reversed registration sequence even when some
teardown fails, so a failure never stops processing of the
earlier-registered resources and nothing is retried. A failing teardown's
error is reported (recorded as `some e` next to its resource) rather than
raised: `cleanup` is a total function returning the whole attempt trace. -/
theorem cleanup_reverse_all_attempted_once (r : Resources)
    (free : Resource → Except String Unit) :
    r.cleanup free = r.resources.reverse.map
      (fun x => (x, match free x with | .ok _ => none | .error e => some e)) := by
  unfold Resources.cleanup
  exact cleanupLoop_eq_map free r.resources.reverse

/-- Oracle for the backend (podman API): the result of the n-th fallible
backend call in a run. A `.ok` payload stands for the identifier the call
returns (container id for a create, unused otherwise). -/
abbrev Backend := Nat → Except String String

/-- `Driver::network` (driver.rs): picks a fresh client-side name
(`Uuid::new_v4()`, abstracted by the `uuid` oracle at the current call
counter), issues one fallible backend call (`networks().create`), and on
success registers the `Network` into the ledger immediately and returns it. -/
def Driver.network (bk : Backend) (uuid : Nat → String) (c : Nat) (res : Resources) :
    Except String Network × Resources × Nat :=
  let name := uuid c
  match bk c with
  | .error e => (.error e, res, c + 1)
  | .ok _ =>
    let net : Network := ⟨name⟩
    (.ok net, res.register (.network net), c + 1)

/-- `Driver::service` (driver.rs): issues two fallible backend calls —
container create (returning the container id) and container start — and
only after both succeed builds the `Service` handle and registers it into
the ledger. An error in either call returns before anything is registered. -/
def Driver.service (bk : Backend) (c : Nat) (config : ServiceConfig) (net : Network)
    (res : Resources) : Except String Service × Resources × Nat :=
  match bk c with
  | .error e => (.error e, res, c + 1)
  | .ok id =>
    match bk (c + 1) with
    | .error e => (.error e, res, c + 2)
    | .ok _ =>
      let svc : Service := ⟨config.name, net, id⟩
      (.ok svc, res.register (.service svc), c + 2)

/-- Application handle (lib.rs `struct App`): the name → service map built
during provisioning. The Rust `HashMap` is modelled as an association list
where insertion conses in front and lookup takes the first match, which
reproduces `HashMap::insert`'s last-write-wins observable behaviour. -/
structure App where
  services : List (String × Service)
deriving DecidableEq

/-- `App::service` (lib.rs): lookup of a provisioned service by name;
returns `some` service exactly when the name is a key of the map. -/
def App.service (a : App) (s : String) : Option Service :=
  (a.services.find? (fun p => p.1 == s)).map Prod.snd

/-- Abstraction of a test future's observable behaviour: `result` is the
`tokio::spawn` join outcome and `logs` are the entries the select loop in
`TestSuite::run` receives before the future completes (arrival timing is
environment nondeterminism, so it is data here). -/
structure LogLine where
  name : String
  data : String
deriving DecidableEq

/-- Payload of a panic carried by a `tokio::task::JoinError`, as probed by
`TestSuite::run`: a `&str`, a `String`, or something else. -/
inductive PanicPayload where
  | str (s : String)
  | string (s : String)
  | other
deriving DecidableEq

/-- `tokio::task::JoinError` as observed through `try_into_panic()`:
either the task panicked (with some payload) or it did not
(`try_into_panic` returns `Err(e)`, whose `to_string()` is kept). -/
inductive JoinError where
  | panicked (p : PanicPayload)
  | notPanic (msg : String)
deriving DecidableEq

/-- Join result of the spawned test future: completed normally, or failed
with a `JoinError`. -/
inductive UnitResult where
  | ok
  | err (e : JoinError)
deriving DecidableEq

/-- Observable behaviour of one test function (see module docstring). -/
structure TestFnBehavior where
  result : UnitResult
  logs : List LogLine
deriving DecidableEq

/-- A collected test (lib.rs `struct Test`): the function (abstracted to its
behaviour) and the fully-qualified test name. There is no ignore flag: the
Rust `Test` struct has exactly the fields `f` and `name`. -/
structure Test where
  f : TestFnBehavior
  name : String
deriving DecidableEq

/-- Application configuration (lib.rs `struct AppConfig`). -/
structure AppConfig where
  name : String
  services : List ServiceConfig
deriving DecidableEq

/-- A test suite (lib.rs `struct TestSuite`): an application configuration
plus the tests declared against it. -/
structure TestSuite where
  app : AppConfig
  tests : List Test
deriving DecidableEq

/-- `TestSuite::new` (lib.rs). -/
def TestSuite.new (app : AppConfig) : TestSuite :=
  ⟨app, []⟩

/-- The `for config in &self.app.services` loop of
`TestSuite::instantiate_app` (lib.rs): creates one service per
configuration, in declared order, threading the ledger and inserting each
created service into the name map; a creation error aborts the loop,
leaving the ledger with everything registered so far. -/
def instantiateLoop (bk : Backend) (net : Network) :
    List ServiceConfig → Nat → Resources → List (String × Service) →
    Except String (List (String × Service)) × Resources × Nat
  | [], c, res, acc => (.ok acc, res, c)
  | config :: rest, c, res, acc =>
    match Driver.service bk c config net res with
    | (.error e, res', c') => (.error e, res', c')
    | (.ok svc, res', c') => instantiateLoop bk net rest c' res' ((config.name, svc) :: acc)

/-- `TestSuite::instantiate_app` (lib.rs): creates the network, then every
service of the owning application in declared order, registering each
resource into the suite's ledger as created; returns the `App` handle on
full success, and otherwise the error together with the partially-filled
ledger. -/
def TestSuite.instantiate_app (s : TestSuite) (bk : Backend) (uuid : Nat → String)
    (c : Nat) (res : Resources) : Except String App × Resources × Nat :=
  match Driver.network bk uuid c res with
  | (.error e, res', c') => (.error e, res', c')
  | (.ok net, res', c') =>
    match instantiateLoop bk net s.app.services c' res' [] with
    | (.error e, res'', c'') => (.error e, res'', c'')
    | (.ok m, res'', c'') => (.ok ⟨m⟩, res'', c'')

/-- Networks whose `NetworkResource` occurs in the ledger segment, newest
first, starting from the already-seen `nets`. -/
def netsSeen (nets : List Network) : List Resource → List Network
  | [] => nets
  | .network n :: rest => netsSeen (n :: nets) rest
  | .service _ :: rest => netsSeen nets rest

/-- Ledger well-formedness relative to already-seen networks: every
`ServiceResource` is preceded (in registration order) by the
`NetworkResource` of the network it is attached to. -/
def okFrom (nets : List Network) : List Resource → Bool
  | [] => true
  | .network n :: rest => okFrom (n :: nets) rest
  | .service s :: rest => decide (s.net ∈ nets) && okFrom nets rest

/-- A ledger is good when every service entry is preceded by its network. -/
def goodLedger (l : List Resource) : Bool := okFrom [] l

theorem netsSeen_append (nets : List Network) (l1 l2 : List Resource) :
    netsSeen nets (l1 ++ l2) = netsSeen (netsSeen nets l1) l2 := by
  induction l1 generalizing nets with
  | nil => rfl
  | cons x rest ih => cases x <;> simp [netsSeen, ih]

theorem okFrom_append (nets : List Network) (l1 l2 : List Resource) :
    okFrom nets (l1 ++ l2) = (okFrom nets l1 && okFrom (netsSeen nets l1) l2) := by
  induction l1 generalizing nets with
  | nil => simp [okFrom, netsSeen]
  | cons x rest ih =>
    cases x <;> simp [okFrom, netsSeen, ih, Bool.and_assoc, List.append_eq]

theorem goodLedger_of_prefix {p l : List Resource} (h : goodLedger l = true)
    (hp : p <+: l) : goodLedger p = true := by
  obtain ⟨t, rfl⟩ := hp
  unfold goodLedger at *
  simp only [okFrom_append, Bool.and_eq_true] at h
  exact h.1

theorem goodLedger_snoc_network {l : List Resource} (h : goodLedger l = true)
    (n : Network) :
    goodLedger (l ++ [.network n]) = true ∧
    netsSeen [] (l ++ [.network n]) = n :: netsSeen [] l := by
  unfold goodLedger at *
  rw [okFrom_append, netsSeen_append]
  simp [okFrom, netsSeen, h]

theorem goodLedger_snoc_service {l : List Resource} {svc : Service}
    (h : goodLedger l = true) (hn : svc.net ∈ netsSeen [] l) :
    goodLedger (l ++ [.service svc]) = true ∧
    netsSeen [] (l ++ [.service svc]) = netsSeen [] l := by
  unfold goodLedger at *
  rw [okFrom_append, netsSeen_append]
  simp [okFrom, netsSeen, h, hn]

theorem instantiateLoop_ledger (bk : Backend) (net : Network)
    (configs : List ServiceConfig) :
    ∀ (c : Nat) (res : Resources) (acc : List (String × Service)),
    net ∈ netsSeen [] res.resources → goodLedger res.resources = true →
    res.resources <+: (instantiateLoop bk net configs c res acc).2.1.resources ∧
    goodLedger (instantiateLoop bk net configs c res acc).2.1.resources = true := by
  induction configs with
  | nil =>
    intro c res acc hn hg
    exact ⟨List.prefix_refl _, hg⟩
  | cons config rest ih =>
    intro c res acc hn hg
    cases hbk : bk c with
    | error e =>
      have hres : (instantiateLoop bk net (config :: rest) c res acc).2.1 = res := by
        simp [instantiateLoop, Driver.service, hbk]
      rw [hres]
      exact ⟨List.prefix_refl _, hg⟩
    | ok id =>
      cases hbk2 : bk (c + 1) with
      | error e =>
        have hres : (instantiateLoop bk net (config :: rest) c res acc).2.1 = res := by
          simp [instantiateLoop, Driver.service, hbk, hbk2]
        rw [hres]
        exact ⟨List.prefix_refl _, hg⟩
      | ok v =>
        have hstep :
            instantiateLoop bk net (config :: rest) c res acc =
            instantiateLoop bk net rest (c + 2)
              ⟨res.resources ++ [.service ⟨config.name, net, id⟩]⟩
              ((config.name, ⟨config.name, net, id⟩) :: acc) := by
          simp [instantiateLoop, Driver.service, hbk, hbk2, Resources.register]
        rw [hstep]
        have hng := @goodLedger_snoc_service res.resources
          ⟨config.name, net, id⟩ hg hn
        have hrec := ih (c + 2) ⟨res.resources ++ [.service ⟨config.name, net, id⟩]⟩
          ((config.name, ⟨config.name, net, id⟩) :: acc)
          (show net ∈ netsSeen []
              (res.resources ++ [.service ⟨config.name, net, id⟩]) by
            rw [hng.2]; exact hn)
          hng.1
        refine ⟨?_, hrec.2⟩
        obtain ⟨t, ht⟩ := hrec.1
        exact ⟨Resource.service ⟨config.name, net, id⟩ :: t, by
          rw [← ht]; simp⟩

/-- Claim C8: a single provisioning step (`TestSuite::instantiate_app`) only
appends to the ledger (the incoming ledger is a prefix of the outgoing one,
so the registration sequence is never reordered and equals the creation
sequence of the successfully created resources: first the network, then the
services in declared order, each registered as soon as its creation
succeeds). Moreover every reachable ledger state — every prefix of the
resulting ledger — satisfies the invariant that a `ServiceResource` is
never registered before the `NetworkResource` of the network it is attached
to, for every backend behaviour (including ones that fail partway). -/
theorem instantiate_app_ledger_invariant (s : TestSuite) (bk : Backend)
    (uuid : Nat → String) (c : Nat) (res : Resources)
    (h : goodLedger res.resources = true) :
    res.resources <+: (s.instantiate_app bk uuid c res).2.1.resources ∧
    ∀ p, p <+: (s.instantiate_app bk uuid c res).2.1.resources →
      goodLedger p = true := by
  cases hbk : bk c with
  | error e =>
    have hres : (s.instantiate_app bk uuid c res).2.1 = res := by
      simp [TestSuite.instantiate_app, Driver.network, hbk]
    rw [hres]
    exact ⟨List.prefix_refl _, fun p hp => goodLedger_of_prefix h hp⟩
  | ok v =>
    have hnet :
        Driver.network bk uuid c res =
        (.ok ⟨uuid c⟩, ⟨res.resources ++ [.network ⟨uuid c⟩]⟩, c + 1) := by
      simp [Driver.network, hbk, Resources.register]
    have hng := goodLedger_snoc_network h (⟨uuid c⟩ : Network)
    have hloop := instantiateLoop_ledger bk ⟨uuid c⟩ s.app.services (c + 1)
      ⟨res.resources ++ [.network ⟨uuid c⟩]⟩ []
      (show (⟨uuid c⟩ : Network) ∈ netsSeen []
          (res.resources ++ [.network ⟨uuid c⟩]) by
        rw [hng.2]; exact List.mem_cons_self _ _)
      hng.1
    have hres : (s.instantiate_app bk uuid c res).2.1 =
        (instantiateLoop bk ⟨uuid c⟩ s.app.services (c + 1)
          ⟨res.resources ++ [.network ⟨uuid c⟩]⟩ []).2.1 := by
      simp only [TestSuite.instantiate_app, hnet]
      rcases hl : instantiateLoop bk ⟨uuid c⟩ s.app.services (c + 1)
        ⟨res.resources ++ [.network ⟨uuid c⟩]⟩ [] with ⟨r2, res2, c2⟩
      rw [hl]
      cases r2 <;> rfl
    rw [hres]
    constructor
    · exact List.IsPrefix.trans ⟨[.network ⟨uuid c⟩], rfl⟩ hloop.1
    · intro p hp
      exact goodLedger_of_prefix hloop.2 hp

theorem instantiateLoop_lookup (bk : Backend) (net : Network)
    (configs : List ServiceConfig) :
    ∀ (c : Nat) (res : Resources) (acc : List (String × Service))
      (m : List (String × Service)) (res' : Resources) (c' : Nat),
    instantiateLoop bk net configs c res acc = (.ok m, res', c') →
    ∀ str : String,
      (m.find? (fun p => p.1 == str)).isSome ↔
      str ∈ configs.map ServiceConfig.name ∨
        (acc.find? (fun p => p.1 == str)).isSome := by
  induction configs with
  | nil =>
    intro c res acc m res' c' h str
    have hm : m = acc := by
      simp only [instantiateLoop, Prod.mk.injEq, Except.ok.injEq] at h
      exact h.1.symm
    subst hm
    simp
  | cons config rest ih =>
    intro c res acc m res' c' h str
    cases hbk : bk c with
    | error e => simp [instantiateLoop, Driver.service, hbk] at h
    | ok id =>
      cases hbk2 : bk (c + 1) with
      | error e => simp [instantiateLoop, Driver.service, hbk, hbk2] at h
      | ok v =>
        have hstep :
            instantiateLoop bk net (config :: rest) c res acc =
            instantiateLoop bk net rest (c + 2)
              (res.register (.service ⟨config.name, net, id⟩))
              ((config.name, ⟨config.name, net, id⟩) :: acc) := by
          simp [instantiateLoop, Driver.service, hbk, hbk2]
        rw [hstep] at h
        have hiff := ih _ _ _ _ _ _ h str
        rw [hiff]
        by_cases hc : config.name = str
        · subst hc
          simp
        · have hb : (config.name == str) = false := beq_false_of_ne hc
          simp only [List.map_cons, List.mem_cons, List.find?_cons, hb,
            cond_false]
          tauto

/-- Claim C10: whenever `TestSuite::instantiate_app` succeeds with an `App`
handle, `App::service` is a total lookup that never fails: for every string
`str` it returns `some` service exactly when `str` is the name of one of
the owning application's configured services, and `none` for every other
string. -/
theorem app_service_lookup (s : TestSuite) (bk : Backend) (uuid : Nat → String)
    (c : Nat) (res : Resources) (a : App) (res' : Resources) (c' : Nat)
    (h : s.instantiate_app bk uuid c res = (.ok a, res', c')) (str : String) :
    (a.service str).isSome ↔ str ∈ s.app.services.map ServiceConfig.name := by
  rcases hn : Driver.network bk uuid c res with ⟨r1, res1, c1⟩
  cases r1 with
  | error e => simp [TestSuite.instantiate_app, hn] at h
  | ok net =>
    rcases hl : instantiateLoop bk net s.app.services c1 res1 [] with ⟨r2, res2, c2⟩
    cases r2 with
    | error e => simp [TestSuite.instantiate_app, hn, hl] at h
    | ok m =>
      have ha : a = ⟨m⟩ := by
        simp [TestSuite.instantiate_app, hn, hl] at h
        exact h.1.symm
      subst ha
      have := instantiateLoop_lookup bk net s.app.services c1 res1 [] m res2 c2 hl str
      simp only [List.find?, Option.isSome_none, or_false] at this
      simpa [App.service, Option.isSome_map] using this

/-- Outcome of one executed test (emitter.rs `enum TestOutcome`). -/
inductive TestOutcome where
  | pass
  | fail (output : String)
  | ignore
deriving DecidableEq

/-- One recorded result (emitter.rs `struct TestResult`). -/
structure TestResult where
  name : String
  outcome : TestOutcome
  logs : Option (List LogLine)
deriving DecidableEq

/-- `TestResult::pass` (emitter.rs). -/
def TestResult.pass (name : String) (logs : Option (List LogLine)) : TestResult :=
  ⟨name, .pass, logs⟩

/-- `TestResult::fail` (emitter.rs). -/
def TestResult.fail (name : String) (e : String) (logs : Option (List LogLine)) :
    TestResult :=
  ⟨name, .fail e, logs⟩

/-- `TestResult::ignore` (emitter.rs). Note: no code in the crate ever
calls this constructor. -/
def TestResult.ignore (name : String) : TestResult :=
  ⟨name, .ignore, none⟩

/-- The reporter (emitter.rs `struct Emitter`): retained results plus the
`log_all` flag. The `started_at : Instant` wall-clock field has no
shallow-embedding counterpart; the elapsed time it feeds appears only in
the final report, which is modelled without it. -/
structure Emitter where
  results : List TestResult
  log_all : Bool
deriving DecidableEq

/-- `Emitter::new` (emitter.rs). -/
def Emitter.new (log_all : Bool) : Emitter :=
  ⟨[], log_all⟩

/-- `Emitter::default()` as called by `Octopod::init`: the field-wise
default (no retained results, `log_all = false`). emitter.rs commits no
explicit `Default` impl — a `derive` slip — so the derived default is
modelled. -/
def Emitter.default : Emitter :=
  ⟨[], false⟩

/-- `Emitter::emit` (emitter.rs): prints the one-line status for the
result and retains it — always for Fail and Ignore, and only when
`log_all` is set for Pass. -/
def Emitter.emit (em : Emitter) (result : TestResult) : Emitter :=
  match result.outcome with
  | .pass => if em.log_all then { em with results := em.results ++ [result] } else em
  | .fail _ => { em with results := em.results ++ [result] }
  | .ignore => { em with results := em.results ++ [result] }

/-- Message-extraction policy of `TestSuite::run` (lib.rs): on a join
error, `try_into_panic()` success probes the payload for `&str` and then
for `String`, falling back to the fixed text; a join error that is not a
panic is rendered with `to_string()`. -/
def joinErrorMessage : JoinError → String
  | .panicked (.str e) => e
  | .panicked (.string e) => e
  | .panicked .other => "task panicked with no message"
  | .notPanic e => e

/-- The `for Test { name, f } in &self.tests` loop of `TestSuite::run`
(lib.rs): provisions one environment per test (the `?` on
`instantiate_app` aborts the loop with the error), runs the spawned test
future while draining its merged log stream, derives the outcome from the
join result, emits it, and continues with the next test. Besides the Rust
return value, the model also returns the call counter, ledger, emitter,
and the sequence of results passed to `Emitter::emit`, in order. -/
def TestSuite.runTests (s : TestSuite) (bk : Backend) (uuid : Nat → String) :
    List Test → Nat → Resources → Emitter →
    Except String Unit × Nat × Resources × Emitter × List TestResult
  | [], c, res, em => (.ok (), c, res, em, [])
  | t :: rest, c, res, em =>
    match s.instantiate_app bk uuid c res with
    | (.error e, res', c') => (.error e, c', res', em, [])
    | (.ok _a, res', c') =>
      let logs := t.f.logs
      let result := match t.f.result with
        | .ok => TestResult.pass t.name (some logs)
        | .err e => TestResult.fail t.name (joinErrorMessage e) (some logs)
      let step := s.runTests bk uuid rest c' res' (em.emit result)
      (step.1, step.2.1, step.2.2.1, step.2.2.2.1, result :: step.2.2.2.2)

/-- `TestSuite::run` (lib.rs): the loop above over the suite's own tests. -/
def TestSuite.run (s : TestSuite) (bk : Backend) (uuid : Nat → String)
    (c : Nat) (res : Resources) (em : Emitter) :
    Except String Unit × Nat × Resources × Emitter × List TestResult :=
  s.runTests bk uuid s.tests c res em

/-- One observable engine event of `Octopod::run`: a result handed to the
emitter, the `eprintln!` report of a suite error, or a ledger rollback
with its teardown-attempt trace. -/
inductive Event where
  | emitted (r : TestResult)
  | suiteError (e : String)
  | cleanup (attempts : List (Resource × Option String))
deriving DecidableEq

/-- The engine (lib.rs `struct Octopod`): the suites plus the reporter.
The `driver` field is abstracted into the oracles passed to `run`. -/
structure Octopod where
  suites : List TestSuite
  emitter : Emitter
deriving DecidableEq

/-- The `for suite in self.suites` loop of `Octopod::run` (lib.rs): per
suite a fresh `Resources::default()` ledger is created, the suite is run
(a suite error is reported via `eprintln!`, never propagated), and the
ledger is always rolled back via `cleanup`. -/
def runSuites (bk : Backend) (uuid : Nat → String)
    (free : Resource → Except String Unit) :
    List TestSuite → Nat → Emitter → Nat × Emitter × List Event
  | [], c, em => (c, em, [])
  | s :: rest, c, em =>
    let step := s.run bk uuid c ⟨[]⟩ em
    let errEvts : List Event := match step.1 with
      | .ok _ => []
      | .error e => [.suiteError e]
    let cleanupEvt : Event := .cleanup (step.2.2.1.cleanup free)
    let next := runSuites bk uuid free rest step.2.1 step.2.2.2.1
    (next.1, next.2.1,
      (step.2.2.2.2.map Event.emitted) ++ errEvts ++ [cleanupEvt] ++ next.2.2)

/-- `Octopod::run` (lib.rs): drives every suite sequentially as above and
then returns `Ok(())` — the function's only return path. -/
def Octopod.run (o : Octopod) (bk : Backend) (uuid : Nat → String)
    (free : Resource → Except String Unit) :
    Except String Unit × Emitter × List Event :=
  let step := runSuites bk uuid free o.suites 0 o.emitter
  (.ok (), step.2.1, step.2.2)

/-- Test declaration as consumed by `Octopod::init`, which reads
`decl.name`, `decl.app` and `decl.f` from the inventory-collected list.
Note the committed workspace is internally inconsistent here: sealed.rs
declares fields `name`, `target_apps`, `f` (no `app`, no `ignore`), while
octopod-macros constructs `TestDecl` with `name`, `f`, `app`, `ignore`.
This embedding follows the fields the claims' cited code (lib.rs) uses. -/
structure TestDecl where
  name : String
  app : String
  f : TestFnBehavior
deriving DecidableEq

/-- The error message of `Octopod::init` for a declaration whose owning
application is not registered (lib.rs: the `with_context` format string);
it names both the application and the test. -/
def unknownAppMsg (app t : String) : String :=
  "unknown app `" ++ app ++ "` in test `" ++ t ++ "`"

/-- `HashMap::insert` on the name → suite map of `Octopod::init`:
overwrites the value at an existing key, otherwise adds the binding. -/
def insertSuite : List (String × TestSuite) → String → TestSuite →
    List (String × TestSuite)
  | [], k, v => [(k, v)]
  | (k', v') :: rest, k, v =>
    if k' = k then (k, v) :: rest else (k', v') :: insertSuite rest k v

/-- `suites.get_mut(decl.app)` followed by `.tests.push(test)` in
`Octopod::init`: `none` when the key is absent (the `with_context` error
path), otherwise the map with the test appended to that suite. -/
def pushTest : List (String × TestSuite) → String → Test →
    Option (List (String × TestSuite))
  | [], _, _ => none
  | (k, v) :: rest, app, t =>
    if k = app then some ((k, { v with tests := v.tests ++ [t] }) :: rest)
    else (pushTest rest app t).map (fun m => (k, v) :: m)

/-- The `for decl in inventory::iter::<TestDecl>()` loop of
`Octopod::init`: pushes each declared test into its owning suite, failing
with the configuration error on the first declaration whose application
is not in the map. -/
def initLoop : List TestDecl → List (String × TestSuite) →
    Except String (List (String × TestSuite))
  | [], m => .ok m
  | d :: rest, m =>
    match pushTest m d.app ⟨d.f, d.name⟩ with
    | none => .error (unknownAppMsg d.app d.name)
    | some m' => initLoop rest m'

/-- `Octopod::init` (lib.rs): builds the name → suite map from the
application configurations, folds the static declaration list into it
(failing eagerly on an unknown application), and assembles the engine.
The podman client construction (`Driver::new`) is external-collaborator
glue outside this crate's logic and is not modelled; `init` performs no
backend call and provisions nothing — provisioning exists only in `run`. -/
def Octopod.init (apps : List AppConfig) (decls : List TestDecl) :
    Except String Octopod :=
  match initLoop decls
      (apps.foldl (fun m config => insertSuite m config.name (TestSuite.new config)) []) with
  | .error e => .error e
  | .ok m => .ok ⟨m.map Prod.snd, Emitter.default⟩

/-- Backend oracle on which every call succeeds. -/
def bkOk : Backend := fun _ => .ok "id0"

/-- Fresh-name oracle for concrete runs. -/
def uuidDemo : Nat → String := fun _ => "net0"

/-- Teardown oracle on which every teardown succeeds. -/
def freeOk : Resource → Except String Unit := fun _ => .ok ()

/-- A test whose future panics with the `&str` payload "boom". -/
def failingTest : Test := ⟨⟨.err (.panicked (.str "boom")), []⟩, "t1"⟩

/-- A test whose future completes normally. -/
def passingTest : Test := ⟨⟨.ok, []⟩, "t2"⟩

/-- An application with no services (so provisioning creates one network). -/
def demoApp : AppConfig := ⟨"app", []⟩

/-- A suite whose only test fails. -/
def demoSuiteFail : TestSuite := ⟨demoApp, [failingTest]⟩

/-- A suite whose only test passes. -/
def demoSuitePass : TestSuite := ⟨demoApp, [passingTest]⟩

/-- A suite whose first test fails and whose second passes. -/
def demoSuiteMix : TestSuite := ⟨demoApp, [failingTest, passingTest]⟩

/-- An engine with the single failing suite. -/
def demoOctoFail : Octopod := ⟨[demoSuiteFail], Emitter.default⟩

/-- Claim C1 counterexample: a concrete run whose only (non-ignored) test
fails — the Fail outcome is emitted — yet `Octopod::run` returns plain
success, and `TestSuite::run` also returned `Ok(())`; neither reports the
boolean "all non-ignored tests passed" the claim describes. -/
theorem run_ok_despite_failing_test :
    (demoOctoFail.run bkOk uuidDemo freeOk).1 = .ok () ∧
    (demoOctoFail.run bkOk uuidDemo freeOk).2.2 =
      [Event.emitted (TestResult.fail "t1" "boom" (some [])),
       Event.cleanup [(Resource.network ⟨"net0"⟩, none)]] ∧
    (demoSuiteFail.run bkOk uuidDemo 0 ⟨[]⟩ Emitter.default).1 = .ok () :=
  ⟨rfl, rfl, rfl⟩

/-- Claim C1 amended: `run` executes the suites sequentially and always
returns `Ok(())`, for every engine and every oracle behaviour; test
failures are observable only through the emitted outcomes, never through
the return value of `Octopod::run` or `TestSuite::run`. -/
theorem run_always_returns_ok (o : Octopod) (bk : Backend) (uuid : Nat → String)
    (free : Resource → Except String Unit) :
    (o.run bk uuid free).1 = .ok () := rfl

/-- Claim C2 (evaluation of the committed code): the runner has no ignore
path. For a suite with one declared test, `TestSuite::run` provisions an
environment for it (the ledger receives the created network resource) and
emits a Pass/Fail outcome derived from the run — never an Ignored
outcome: neither `Test` nor the fields of `TestDecl` read by lib.rs
carry the ignore flag that octopod-macros emits, and `TestResult::ignore`
is never called. -/
theorem runner_provisions_every_test_no_ignore_path :
    (demoSuitePass.run bkOk uuidDemo 0 ⟨[]⟩ Emitter.default).2.2.1.resources =
      [Resource.network ⟨"net0"⟩] ∧
    (demoSuitePass.run bkOk uuidDemo 0 ⟨[]⟩ Emitter.default).2.2.2.2 =
      [TestResult.pass "t2" (some [])] :=
  ⟨rfl, rfl⟩

/-- Claim C4 counterexample: at a concrete suite whose first test panics,
the Fail outcome is derived and the second test still runs, but no suite
success flag is flipped — `TestSuite::run` has no success flag and still
returns `Ok(())` after the fault. -/
theorem suite_result_ok_despite_fault :
    (demoSuiteMix.run bkOk uuidDemo 0 ⟨[]⟩ Emitter.default).1 = .ok () ∧
    (demoSuiteMix.run bkOk uuidDemo 0 ⟨[]⟩ Emitter.default).2.2.2.2 =
      [TestResult.fail "t1" "boom" (some []), TestResult.pass "t2" (some [])] :=
  ⟨rfl, rfl⟩

/-- The per-test outcome the runner derives (claim C4's expected
derivation): Pass on normal completion, otherwise Fail carrying the
panic's string payload when extractable and the fixed fallback message
otherwise. -/
def expectedResult (t : Test) : TestResult :=
  match t.f.result with
  | .ok => TestResult.pass t.name (some t.f.logs)
  | .err e => TestResult.fail t.name (joinErrorMessage e) (some t.f.logs)

theorem instantiateLoop_all_ok (bk : Backend) (net : Network)
    (h : ∀ n, ∃ v, bk n = .ok v) :
    ∀ (configs : List ServiceConfig) (c : Nat) (res : Resources)
      (acc : List (String × Service)),
    ∃ m res' c', instantiateLoop bk net configs c res acc = (.ok m, res', c') := by
  intro configs
  induction configs with
  | nil => intro c res acc; exact ⟨acc, res, c, rfl⟩
  | cons config rest ih =>
    intro c res acc
    obtain ⟨id, hid⟩ := h c
    obtain ⟨v, hv⟩ := h (c + 1)
    obtain ⟨m, res', c', hrec⟩ := ih (c + 2)
      (res.register (.service ⟨config.name, net, id⟩))
      ((config.name, ⟨config.name, net, id⟩) :: acc)
    refine ⟨m, res', c', ?_⟩
    simp [instantiateLoop, Driver.service, hid, hv, hrec]

theorem instantiate_app_all_ok (s : TestSuite) (bk : Backend)
    (uuid : Nat → String) (h : ∀ n, ∃ v, bk n = .ok v) (c : Nat)
    (res : Resources) :
    ∃ a res' c', s.instantiate_app bk uuid c res = (.ok a, res', c') := by
  obtain ⟨v, hv⟩ := h c
  obtain ⟨m, res', c', hloop⟩ := instantiateLoop_all_ok bk ⟨uuid c⟩ h
    s.app.services (c + 1) (res.register (.network ⟨uuid c⟩)) []
  refine ⟨⟨m⟩, res', c', ?_⟩
  simp [TestSuite.instantiate_app, Driver.network, hv, hloop]

theorem runTests_all_ok (s : TestSuite) (bk : Backend) (uuid : Nat → String)
    (h : ∀ n, ∃ v, bk n = .ok v) :
    ∀ (tests : List Test) (c : Nat) (res : Resources) (em : Emitter),
    (s.runTests bk uuid tests c res em).1 = .ok () ∧
    (s.runTests bk uuid tests c res em).2.2.2.2 = tests.map expectedResult := by
  intro tests
  induction tests with
  | nil => intro c res em; exact ⟨rfl, rfl⟩
  | cons t rest ih =>
    intro c res em
    obtain ⟨a, res', c', ha⟩ := instantiate_app_all_ok s bk uuid h c res
    have hstep : s.runTests bk uuid (t :: rest) c res em =
        (let step := s.runTests bk uuid rest c' res' (em.emit (expectedResult t))
         (step.1, step.2.1, step.2.2.1, step.2.2.2.1,
          expectedResult t :: step.2.2.2.2)) := by
      cases hres : t.f.result <;>
        simp [TestSuite.runTests, ha, expectedResult, hres]
    rw [hstep]
    exact ⟨(ih _ _ _).1, by simp [(ih _ _ _).2]⟩

/-- Claim C4 amended: when provisioning succeeds (every backend call
returns ok), every test of the suite executes and yields exactly one
outcome, in declaration order: Pass on normal completion; on a runtime
fault, Fail whose message is the panic's string payload when one is
extractable and the fixed "task panicked with no message" fallback
otherwise. A fault is never propagated past the suite runner — the run
still returns `Ok(())` — and every subsequent test still executes; but no
suite success flag exists to flip: the suite-level return value stays
`Ok` regardless of test failures. -/
theorem suite_derives_outcomes_and_continues (s : TestSuite) (bk : Backend)
    (uuid : Nat → String) (c : Nat) (res : Resources) (em : Emitter)
    (h : ∀ n, ∃ v, bk n = .ok v) :
    (s.run bk uuid c res em).1 = .ok () ∧
    (s.run bk uuid c res em).2.2.2.2 = s.tests.map expectedResult :=
  runTests_all_ok s bk uuid h s.tests c res em

/-- Witness for the amended claim C4 at a concrete suite and backend. -/
theorem suite_derives_outcomes_and_continues_witness :
    (demoSuiteMix.run bkOk uuidDemo 0 ⟨[]⟩ Emitter.default).1 = .ok () ∧
    (demoSuiteMix.run bkOk uuidDemo 0 ⟨[]⟩ Emitter.default).2.2.2.2 =
      demoSuiteMix.tests.map expectedResult :=
  suite_derives_outcomes_and_continues demoSuiteMix bkOk uuidDemo 0 ⟨[]⟩
    Emitter.default (fun _ => ⟨"id0", rfl⟩)

theorem instantiateLoop_extends (bk : Backend) (net : Network) :
    ∀ (configs : List ServiceConfig) (c : Nat) (res : Resources)
      (acc : List (String × Service)),
    res.resources <+: (instantiateLoop bk net configs c res acc).2.1.resources := by
  intro configs
  induction configs with
  | nil => intro c res acc; exact List.prefix_refl _
  | cons config rest ih =>
    intro c res acc
    cases hbk : bk c with
    | error e =>
      have hr : (instantiateLoop bk net (config :: rest) c res acc).2.1 = res := by
        simp [instantiateLoop, Driver.service, hbk]
      rw [hr]
    | ok id =>
      cases hbk2 : bk (c + 1) with
      | error e =>
        have hr : (instantiateLoop bk net (config :: rest) c res acc).2.1 = res := by
          simp [instantiateLoop, Driver.service, hbk, hbk2]
        rw [hr]
      | ok v =>
        have hstep : instantiateLoop bk net (config :: rest) c res acc =
            instantiateLoop bk net rest (c + 2)
              ⟨res.resources ++ [.service ⟨config.name, net, id⟩]⟩
              ((config.name, ⟨config.name, net, id⟩) :: acc) := by
          simp [instantiateLoop, Driver.service, hbk, hbk2, Resources.register]
        rw [hstep]
        exact List.IsPrefix.trans ⟨[.service ⟨config.name, net, id⟩], rfl⟩ (ih _ _ _)

theorem instantiate_app_extends (s : TestSuite) (bk : Backend)
    (uuid : Nat → String) (c : Nat) (res : Resources) :
    res.resources <+: (s.instantiate_app bk uuid c res).2.1.resources := by
  cases hbk : bk c with
  | error e =>
    have hr : (s.instantiate_app bk uuid c res).2.1 = res := by
      simp [TestSuite.instantiate_app, Driver.network, hbk]
    rw [hr]
  | ok v =>
    have hnet : Driver.network bk uuid c res =
        (.ok ⟨uuid c⟩, ⟨res.resources ++ [.network ⟨uuid c⟩]⟩, c + 1) := by
      simp [Driver.network, hbk, Resources.register]
    have hres : (s.instantiate_app bk uuid c res).2.1 =
        (instantiateLoop bk ⟨uuid c⟩ s.app.services (c + 1)
          ⟨res.resources ++ [.network ⟨uuid c⟩]⟩ []).2.1 := by
      simp only [TestSuite.instantiate_app, hnet]
      rcases hl : instantiateLoop bk ⟨uuid c⟩ s.app.services (c + 1)
        ⟨res.resources ++ [.network ⟨uuid c⟩]⟩ [] with ⟨r2, res2, c2⟩
      rw [hl]
      cases r2 <;> rfl
    rw [hres]
    exact List.IsPrefix.trans ⟨[.network ⟨uuid c⟩], rfl⟩
      (instantiateLoop_extends bk ⟨uuid c⟩ s.app.services (c + 1)
        ⟨res.resources ++ [.network ⟨uuid c⟩]⟩ [])

theorem runTests_extends (s : TestSuite) (bk : Backend) (uuid : Nat → String) :
    ∀ (tests : List Test) (c : Nat) (res : Resources) (em : Emitter),
    res.resources <+: (s.runTests bk uuid tests c res em).2.2.1.resources := by
  intro tests
  induction tests with
  | nil => intro c res em; exact List.prefix_refl _
  | cons t rest ih =>
    intro c res em
    rcases hi : s.instantiate_app bk uuid c res with ⟨r, res', c'⟩
    have hpre : res.resources <+: res'.resources := by
      have h0 := instantiate_app_extends s bk uuid c res
      rw [hi] at h0
      exact h0
    cases r with
    | error e =>
      have hr : (s.runTests bk uuid (t :: rest) c res em).2.2.1 = res' := by
        simp [TestSuite.runTests, hi]
      rw [hr]
      exact hpre
    | ok a =>
      cases hres : t.f.result with
      | ok =>
        have hstep : (s.runTests bk uuid (t :: rest) c res em).2.2.1 =
            (s.runTests bk uuid rest c' res'
              (em.emit (TestResult.pass t.name (some t.f.logs)))).2.2.1 := by
          simp [TestSuite.runTests, hi, hres]
        rw [hstep]
        exact hpre.trans (ih _ _ _)
      | err e2 =>
        have hstep : (s.runTests bk uuid (t :: rest) c res em).2.2.1 =
            (s.runTests bk uuid rest c' res'
              (em.emit (TestResult.fail t.name (joinErrorMessage e2)
                (some t.f.logs)))).2.2.1 := by
          simp [TestSuite.runTests, hi, hres]
        rw [hstep]
        exact hpre.trans (ih _ _ _)

theorem runTests_prefix_of_append (s : TestSuite) (bk : Backend)
    (uuid : Nat → String) :
    ∀ (ts1 ts2 : List Test) (c : Nat) (res : Resources) (em : Emitter),
    (s.runTests bk uuid ts1 c res em).2.2.1.resources <+:
    (s.runTests bk uuid (ts1 ++ ts2) c res em).2.2.1.resources := by
  intro ts1
  induction ts1 with
  | nil =>
    intro ts2 c res em
    exact runTests_extends s bk uuid ts2 c res em
  | cons t rest ih =>
    intro ts2 c res em
    rcases hi : s.instantiate_app bk uuid c res with ⟨r, res', c'⟩
    cases r with
    | error e =>
      have h1 : (s.runTests bk uuid (t :: rest) c res em).2.2.1 = res' := by
        simp [TestSuite.runTests, hi]
      have h2 : (s.runTests bk uuid (t :: rest ++ ts2) c res em).2.2.1 = res' := by
        simp [TestSuite.runTests, hi]
      rw [h1, h2]
    | ok a =>
      cases hres : t.f.result with
      | ok =>
        have h1 : (s.runTests bk uuid (t :: rest) c res em).2.2.1 =
            (s.runTests bk uuid rest c' res'
              (em.emit (TestResult.pass t.name (some t.f.logs)))).2.2.1 := by
          simp [TestSuite.runTests, hi, hres]
        have h2 : (s.runTests bk uuid (t :: rest ++ ts2) c res em).2.2.1 =
            (s.runTests bk uuid (rest ++ ts2) c' res'
              (em.emit (TestResult.pass t.name (some t.f.logs)))).2.2.1 := by
          simp [TestSuite.runTests, hi, hres]
        rw [h1, h2]
        exact ih _ _ _ _
      | err e2 =>
        have h1 : (s.runTests bk uuid (t :: rest) c res em).2.2.1 =
            (s.runTests bk uuid rest c' res'
              (em.emit (TestResult.fail t.name (joinErrorMessage e2)
                (some t.f.logs)))).2.2.1 := by
          simp [TestSuite.runTests, hi, hres]
        have h2 : (s.runTests bk uuid (t :: rest ++ ts2) c res em).2.2.1 =
            (s.runTests bk uuid (rest ++ ts2) c' res'
              (em.emit (TestResult.fail t.name (joinErrorMessage e2)
                (some t.f.logs)))).2.2.1 := by
          simp [TestSuite.runTests, hi, hres]
        rw [h1, h2]
        exact ih _ _ _ _

theorem runSuites_cons (bk : Backend) (uuid : Nat → String)
    (free : Resource → Except String Unit) (s : TestSuite)
    (rest : List TestSuite) (c : Nat) (em : Emitter) :
    runSuites bk uuid free (s :: rest) c em =
      ((runSuites bk uuid free rest (s.run bk uuid c ⟨[]⟩ em).2.1
          (s.run bk uuid c ⟨[]⟩ em).2.2.2.1).1,
       (runSuites bk uuid free rest (s.run bk uuid c ⟨[]⟩ em).2.1
          (s.run bk uuid c ⟨[]⟩ em).2.2.2.1).2.1,
       (s.run bk uuid c ⟨[]⟩ em).2.2.2.2.map Event.emitted ++
         (match (s.run bk uuid c ⟨[]⟩ em).1 with
           | .ok _ => ([] : List Event)
           | .error e => [Event.suiteError e]) ++
         [Event.cleanup ((s.run bk uuid c ⟨[]⟩ em).2.2.1.cleanup free)] ++
         (runSuites bk uuid free rest (s.run bk uuid c ⟨[]⟩ em).2.1
           (s.run bk uuid c ⟨[]⟩ em).2.2.2.1).2.2) := rfl

theorem runSuites_cleanup_blocks (bk : Backend) (uuid : Nat → String)
    (free : Resource → Except String Unit) :
    ∀ (suites : List TestSuite) (c : Nat) (em : Emitter),
    ∃ blocks : List (List Event),
      (runSuites bk uuid free suites c em).2.2 = blocks.flatten ∧
      blocks.length = suites.length ∧
      ∀ b ∈ blocks, ∃ pre attempts, b = pre ++ [Event.cleanup attempts] ∧
        ∀ e ∈ pre, ∀ a, e ≠ Event.cleanup a := by
  intro suites
  induction suites with
  | nil => intro c em; exact ⟨[], rfl, rfl, by simp⟩
  | cons s rest ih =>
    intro c em
    rw [runSuites_cons]
    obtain ⟨blocks, hflat, hlen, hblocks⟩ :=
      ih (s.run bk uuid c ⟨[]⟩ em).2.1 (s.run bk uuid c ⟨[]⟩ em).2.2.2.1
    refine ⟨((s.run bk uuid c ⟨[]⟩ em).2.2.2.2.map Event.emitted ++
        (match (s.run bk uuid c ⟨[]⟩ em).1 with
          | .ok _ => ([] : List Event)
          | .error e => [Event.suiteError e]) ++
        [Event.cleanup ((s.run bk uuid c ⟨[]⟩ em).2.2.1.cleanup free)]) :: blocks,
      ?_, by simp [hlen], ?_⟩
    · simp [hflat]
    · intro b hb
      rcases List.mem_cons.mp hb with rfl | hb
      · refine ⟨(s.run bk uuid c ⟨[]⟩ em).2.2.2.2.map Event.emitted ++
            (match (s.run bk uuid c ⟨[]⟩ em).1 with
              | .ok _ => ([] : List Event)
              | .error e => [Event.suiteError e]),
          (s.run bk uuid c ⟨[]⟩ em).2.2.1.cleanup free, rfl, ?_⟩
        intro e he a
        rcases List.mem_append.mp he with he | he
        · obtain ⟨r, -, rfl⟩ := List.mem_map.mp he
          simp
        · rcases hr : (s.run bk uuid c ⟨[]⟩ em).1 with e0 | u
          · rw [hr] at he
            simp at he
            subst he
            simp
          · rw [hr] at he
            simp at he
      · exact hblocks b hb

/-- Claim C5: (i) for every engine run — any suites, any backend behaviour
(failing ones included), any starting counter and emitter — the event
trace of the suite loop in `Octopod::run` splits into one block per
suite, each consisting of that suite's per-test events (none of which is
a rollback) followed by exactly one ledger-rollback event: the ledger is
rolled back exactly once per suite, after all of that suite's tests, also
when a provisioning error aborted the suite early, in which case the
rollback covers the partially-filled ledger. (ii) The suite's single
ledger only accumulates: after any prefix of the suite's test list the
ledger is a prefix of the final ledger handed to `cleanup`, so the
resources of every earlier test are still in it at rollback time — not
only the last test's. -/
theorem cleanup_once_per_suite_after_tests (bk : Backend) (uuid : Nat → String)
    (free : Resource → Except String Unit) :
    (∀ (suites : List TestSuite) (c : Nat) (em : Emitter),
      ∃ blocks : List (List Event),
        (runSuites bk uuid free suites c em).2.2 = blocks.flatten ∧
        blocks.length = suites.length ∧
        ∀ b ∈ blocks, ∃ pre attempts, b = pre ++ [Event.cleanup attempts] ∧
          ∀ e ∈ pre, ∀ a, e ≠ Event.cleanup a) ∧
    (∀ (s : TestSuite) (ts1 ts2 : List Test) (c : Nat) (res : Resources)
        (em : Emitter),
      (s.runTests bk uuid ts1 c res em).2.2.1.resources <+:
      (s.runTests bk uuid (ts1 ++ ts2) c res em).2.2.1.resources) :=
  ⟨runSuites_cleanup_blocks bk uuid free,
   fun s ts1 ts2 c res em => runTests_prefix_of_append s bk uuid ts1 ts2 c res em⟩

/-- Witness for claim C5 at a concrete suite: the ledger after the first
test is a prefix of the ledger after both tests. -/
theorem cleanup_once_per_suite_witness :
    (demoSuiteMix.runTests bkOk uuidDemo [failingTest] 0 ⟨[]⟩
        Emitter.default).2.2.1.resources <+:
    (demoSuiteMix.runTests bkOk uuidDemo ([failingTest] ++ [passingTest]) 0 ⟨[]⟩
        Emitter.default).2.2.1.resources :=
  (cleanup_once_per_suite_after_tests bkOk uuidDemo freeOk).2 demoSuiteMix
    [failingTest] [passingTest] 0 ⟨[]⟩ Emitter.default

/-- Key membership in the name → suite map. -/
def hasKey (m : List (String × TestSuite)) (k : String) : Bool :=
  m.any (fun p => p.1 == k)

theorem hasKey_insertSuite (m : List (String × TestSuite)) (k k' : String)
    (v : TestSuite) :
    hasKey (insertSuite m k v) k' = true ↔ k = k' ∨ hasKey m k' = true := by
  induction m with
  | nil => simp [insertSuite, hasKey]
  | cons p rest ih =>
    rcases p with ⟨k0, v0⟩
    by_cases hp : k0 = k
    · subst hp
      have hins : insertSuite ((k0, v0) :: rest) k0 v = (k0, v) :: rest := by
        simp [insertSuite]
      rw [hins]
      simp only [hasKey, List.any_cons, Bool.or_eq_true, beq_iff_eq]
      tauto
    · simp only [insertSuite, if_neg hp, hasKey, List.any_cons, Bool.or_eq_true,
        beq_iff_eq] at ih ⊢
      rw [ih]
      tauto

theorem pushTest_none_iff (m : List (String × TestSuite)) (app : String) (t : Test) :
    pushTest m app t = none ↔ hasKey m app = false := by
  induction m with
  | nil => simp [pushTest, hasKey]
  | cons p rest ih =>
    rcases p with ⟨k, v⟩
    by_cases hk : k = app
    · subst hk
      simp [pushTest, hasKey]
    · simp [pushTest, if_neg hk, hasKey, List.any_cons, hk, ih, Option.map_eq_none]

theorem pushTest_some_keys (m : List (String × TestSuite)) (app : String) (t : Test)
    (m' : List (String × TestSuite)) (h : pushTest m app t = some m') (k : String) :
    hasKey m' k = hasKey m k := by
  induction m generalizing m' with
  | nil => simp [pushTest] at h
  | cons p rest ih =>
    rcases p with ⟨k0, v0⟩
    simp only [pushTest] at h
    split at h
    · simp only [Option.some.injEq] at h
      subst h
      simp [hasKey, List.any_cons]
    · rcases hrec : pushTest rest app t with - | m0
      · rw [hrec] at h
        simp at h
      · rw [hrec] at h
        simp at h
        subst h
        have hm := ih m0 hrec
        simp only [hasKey] at hm
        simp [hasKey, List.any_cons, hm]

theorem initLoop_ok_iff (decls : List TestDecl) :
    ∀ m : List (String × TestSuite),
    (initLoop decls m).isOk = true ↔ ∀ d ∈ decls, hasKey m d.app = true := by
  induction decls with
  | nil => intro m; simp [initLoop, Except.isOk, Except.toBool]
  | cons d rest ih =>
    intro m
    rcases hp : pushTest m d.app ⟨d.f, d.name⟩ with - | m'
    · have hkey : hasKey m d.app = false := (pushTest_none_iff m d.app _).mp hp
      simp only [initLoop, hp, Except.isOk, Except.toBool]
      constructor
      · intro h
        exact absurd h (by simp)
      · intro h
        have := h d (List.mem_cons_self _ _)
        rw [hkey] at this
        exact absurd this (by simp)
    · have hkey : hasKey m d.app = true := by
        by_contra hc
        rw [(pushTest_none_iff m d.app ⟨d.f, d.name⟩).mpr
          (Bool.eq_false_iff.mpr hc)] at hp
        exact Option.noConfusion hp
      simp only [initLoop, hp]
      rw [ih m']
      constructor
      · intro h d' hd'
        rcases List.mem_cons.mp hd' with rfl | hd'
        · exact hkey
        · rw [← pushTest_some_keys m d.app ⟨d.f, d.name⟩ m' hp d'.app]
          exact h d' hd'
      · intro h d' hd'
        rw [pushTest_some_keys m d.app ⟨d.f, d.name⟩ m' hp d'.app]
        exact h d' (List.mem_cons_of_mem _ hd')

theorem initLoop_first_error (d : TestDecl) :
    ∀ (pre post : List TestDecl) (m : List (String × TestSuite)),
    (∀ d' ∈ pre, hasKey m d'.app = true) → hasKey m d.app = false →
    initLoop (pre ++ d :: post) m = .error (unknownAppMsg d.app d.name) := by
  intro pre
  induction pre with
  | nil =>
    intro post m _ hbad
    have hp : pushTest m d.app ⟨d.f, d.name⟩ = none :=
      (pushTest_none_iff m d.app _).mpr hbad
    simp [initLoop, hp]
  | cons p rest ih =>
    intro post m hgood hbad
    have hkey : hasKey m p.app = true := hgood p (List.mem_cons_self _ _)
    rcases hp : pushTest m p.app ⟨p.f, p.name⟩ with - | m'
    · rw [(pushTest_none_iff m p.app _).mp hp] at hkey
      exact absurd hkey (by simp)
    · simp only [List.cons_append, initLoop, hp]
      refine ih post m' ?_ ?_
      · intro d' hd'
        rw [pushTest_some_keys m p.app ⟨p.f, p.name⟩ m' hp d'.app]
        exact hgood d' (List.mem_cons_of_mem _ hd')
      · rw [pushTest_some_keys m p.app ⟨p.f, p.name⟩ m' hp d.app]
        exact hbad

theorem hasKey_foldl_insert (apps : List AppConfig) :
    ∀ (m0 : List (String × TestSuite)) (k : String),
    hasKey (apps.foldl
        (fun m config => insertSuite m config.name (TestSuite.new config)) m0) k
      = true ↔
    k ∈ apps.map AppConfig.name ∨ hasKey m0 k = true := by
  induction apps with
  | nil => intro m0 k; simp
  | cons a rest ih =>
    intro m0 k
    simp only [List.foldl_cons, List.map_cons, List.mem_cons]
    rw [ih]
    rw [hasKey_insertSuite]
    constructor
    · rintro (h | (h | h))
      · exact Or.inl (Or.inr h)
      · exact Or.inl (Or.inl h.symm)
      · exact Or.inr h
    · rintro ((h | h) | h)
      · exact Or.inr (Or.inl h.symm)
      · exact Or.inl h
      · exact Or.inr (Or.inr h)

theorem init_isOk_eq (apps : List AppConfig) (decls : List TestDecl) :
    (Octopod.init apps decls).isOk =
      (initLoop decls (apps.foldl
        (fun m config => insertSuite m config.name (TestSuite.new config)) [])).isOk := by
  unfold Octopod.init
  rcases h : initLoop decls (apps.foldl
      (fun m config => insertSuite m config.name (TestSuite.new config)) []) with e | m
  · rw [h]
    rfl
  · rw [h]
    rfl

/-- Claim C6: `Octopod::init` succeeds exactly when every test
declaration's owning application is among the configured applications;
for the first declaration (after any run of well-owned ones) whose
application is missing, it fails with precisely the configuration error
string naming both the test name and the missing application name
(`unknown app ... in test ...`). The check is eager: `init` takes no
backend oracle and constructs no `Resource`, so nothing is provisioned
for a misconfigured run — provisioning exists only inside `run`. -/
theorem init_checks_app_names (apps : List AppConfig) (decls : List TestDecl) :
    ((Octopod.init apps decls).isOk = true ↔
      ∀ d ∈ decls, d.app ∈ apps.map AppConfig.name) ∧
    ∀ pre d post, decls = pre ++ d :: post →
      (∀ d' ∈ pre, d'.app ∈ apps.map AppConfig.name) →
      d.app ∉ apps.map AppConfig.name →
      Octopod.init apps decls = .error (unknownAppMsg d.app d.name) := by
  have hmap : ∀ k : String,
      hasKey (apps.foldl
        (fun m config => insertSuite m config.name (TestSuite.new config)) []) k
        = true ↔ k ∈ apps.map AppConfig.name := by
    intro k
    rw [hasKey_foldl_insert]
    simp [hasKey]
  constructor
  · rw [init_isOk_eq, initLoop_ok_iff]
    constructor
    · intro h d hd
      rw [← hmap d.app]
      exact h d hd
    · intro h d hd
      rw [hmap d.app]
      exact h d hd
  · intro pre d post hdecls hgood hbad
    subst hdecls
    have hloop := initLoop_first_error d pre post
      (apps.foldl (fun m config => insertSuite m config.name (TestSuite.new config)) [])
      (fun d' hd' => (hmap d'.app).mpr (hgood d' hd'))
      (by rw [Bool.eq_false_iff]; intro hc; exact hbad ((hmap d.app).mp hc))
    unfold Octopod.init
    rw [hloop]

/-- A configured application named "web". -/
def webApp : AppConfig := ⟨"web", []⟩

/-- A declaration owned by the configured application. -/
def goodDecl : TestDecl := ⟨"t_good", "web", ⟨.ok, []⟩⟩

/-- A declaration owned by an unconfigured application. -/
def badDecl : TestDecl := ⟨"t_bad", "nope", ⟨.ok, []⟩⟩

/-- Witness for claim C6: with the owning application configured,
construction succeeds; with it missing, construction fails with the error
naming both the test and the application. -/
theorem init_checks_app_names_witness :
    (Octopod.init [webApp] [goodDecl]).isOk = true ∧
    Octopod.init [webApp] [badDecl] = .error (unknownAppMsg "nope" "t_bad") := by
  constructor
  · exact (init_checks_app_names [webApp] [goodDecl]).1.mpr (by decide)
  · exact (init_checks_app_names [webApp] [badDecl]).2 [] badDecl [] rfl
      (by simp) (by decide)

/-- One line printed by the final report in `impl Drop for Emitter`
(emitter.rs). `summary` is the "test result: ..." line, carrying its
ok/failure status word and the three counters; the elapsed wall-clock
duration also interpolated there is real time and has no embedding
counterpart. -/
inductive ReportLine where
  | okHeader (name : String)
  | failureHeader (name : String)
  | failOutput (s : String)
  | logsHeader
  | logEntry (l : LogLine)
  | summary (ok : Bool) (passed ignored failed : Nat)
deriving DecidableEq

/-- The `for result in &self.results` loop of `impl Drop for Emitter`
(emitter.rs): the mutable `passed` / `failed` / `ignored` counters are
incremented per retained result; the per-result header (plus the failure
output for a Fail), then the captured logs, and then — still inside the
loop body, as committed — the "test result: ..." summary line with the
current counter values are printed. -/
def dropLoop : Nat → Nat → Nat → List TestResult → List ReportLine
  | _, _, _, [] => []
  | passed, failed, ignored, r :: rest =>
    let next :=
      match r.outcome with
      | .pass => (passed + 1, failed, ignored, [ReportLine.okHeader r.name])
      | .fail out => (passed, failed + 1, ignored,
          [ReportLine.failureHeader r.name, ReportLine.failOutput out])
      | .ignore => (passed, failed, ignored + 1, ([] : List ReportLine))
    let logLines :=
      match r.logs with
      | some ls => ReportLine.logsHeader :: ls.map ReportLine.logEntry
      | none => []
    next.2.2.2 ++ logLines ++
      [ReportLine.summary (next.2.1 == 0) next.1 next.2.2.1 next.2.1] ++
      dropLoop next.1 next.2.1 next.2.2.1 rest

/-- `impl Drop for Emitter` (emitter.rs): the final report printed when
the reporter is dropped, rendered over the retained results with all
three counters starting at zero. -/
def Emitter.finalReport (em : Emitter) : List ReportLine :=
  dropLoop 0 0 0 em.results

/-- Number of aggregate "test result: ..." lines in a report. -/
def summaryCount (lines : List ReportLine) : Nat :=
  (lines.filter (fun l => match l with
    | .summary _ _ _ _ => true
    | _ => false)).length

/-- Claim C7 (evaluation of the committed code): the aggregate
"test result: ..." line is printed inside the per-result loop of `Drop`,
so a reporter that retained two passing results prints the summary line
twice, with running partial counts — the first occurrence reports
passed = 1 — and a reporter with no retained results never prints it at
all. The aggregate line is therefore not printed exactly once, and its
counts range over retained outcomes only. -/
theorem final_report_summary_per_retained_result :
    (((Emitter.new true).emit (TestResult.pass "a" none)).emit
        (TestResult.pass "b" none)).finalReport =
      [ReportLine.okHeader "a", ReportLine.summary true 1 0 0,
       ReportLine.okHeader "b", ReportLine.summary true 2 0 0] ∧
    summaryCount ((((Emitter.new true).emit (TestResult.pass "a" none)).emit
        (TestResult.pass "b" none)).finalReport) = 2 ∧
    (Emitter.new true).finalReport = [] :=
  ⟨rfl, rfl, rfl⟩

/-- The character-folding hash of `LogLine::name_color` (emitter.rs): a
CRC-style fold over the name's characters on a wrapping 32-bit
accumulator (`h << 5` on a `u32` discards the shifted-out bits, modelled
by the explicit reduction modulo 2^32; `c as u32` is the character's
scalar value). -/
def crcHash (s : String) : Nat :=
  s.data.foldl (fun h c =>
    let highorder := h &&& 0xf8000000
    let h2 := (h <<< 5) % 4294967296
    let h3 := h2 ^^^ (highorder >>> 27)
    h3 ^^^ c.toNat) 0

/-- termion's `color::Rgb` triple of byte components. -/
structure Rgb where
  r : Nat
  g : Nat
  b : Nat
deriving DecidableEq

/-- `LogLine::name_color` (emitter.rs): the hash's three high big-endian
bytes become the RGB components; the lowest byte of the hash is
discarded. -/
def LogLine.name_color (l : LogLine) : Rgb :=
  let h := crcHash l.name
  ⟨(h >>> 24) &&& 255, (h >>> 16) &&& 255, (h >>> 8) &&& 255⟩

/-- Claim C9 counterexample: the service names "a" and "b" are distinct
yet render the same color. The hash of a one-character name is that
character's code (97 resp. 98), and the rendered color keeps only the
hash's top three big-endian bytes — all zero for both names — so the
colors coincide: distinctness of names does not give distinctness of
colors. -/
theorem distinct_names_same_color :
    (⟨"a", ""⟩ : LogLine).name_color = (⟨"b", ""⟩ : LogLine).name_color ∧
    ("a" : String) ≠ "b" := by
  exact ⟨rfl, by decide⟩

/-- Claim C9 amended: the rendered color is a deterministic function of
the service name alone — two log lines with the same service name render
the same color, in one run and across runs, since the hash depends on
nothing but the name; distinct names are however not guaranteed distinct
colors. -/
theorem name_color_deterministic (l1 l2 : LogLine) (hn : l1.name = l2.name) :
    l1.name_color = l2.name_color := by
  unfold LogLine.name_color
  rw [hn]

/-- Witness for the amended claim C9 at two concrete log lines sharing a
service name while differing in payload. -/
theorem name_color_deterministic_witness :
    (⟨"api", "x"⟩ : LogLine).name_color = (⟨"api", "y"⟩ : LogLine).name_color :=
  name_color_deterministic ⟨"api", "x"⟩ ⟨"api", "y"⟩ rfl

/-- An application with one configured service, for concrete provisioning
witnesses. -/
def dbApp : AppConfig := ⟨"web", [⟨"db", "postgres", []⟩]⟩

/-- A suite over `dbApp` (its test list is irrelevant to provisioning). -/
def dbSuite : TestSuite := ⟨dbApp, []⟩

/-- Witness for claim C8 at a concrete provisioning run from the empty
ledger: the resulting ledger satisfies the invariant. -/
theorem instantiate_app_ledger_invariant_witness :
    goodLedger (dbSuite.instantiate_app bkOk uuidDemo 0 ⟨[]⟩).2.1.resources = true :=
  (instantiate_app_ledger_invariant dbSuite bkOk uuidDemo 0 ⟨[]⟩ rfl).2 _
    (List.prefix_refl _)

/-- Witness for claim C10 at the concretely provisioned app: lookup of the
configured service name succeeds and lookup of any other name fails. -/
theorem app_service_lookup_witness :
    ((⟨[("db", ⟨"db", ⟨"net0"⟩, "id0"⟩)]⟩ : App).service "db").isSome = true ∧
    ((⟨[("db", ⟨"db", ⟨"net0"⟩, "id0"⟩)]⟩ : App).service "api").isSome = false := by
  constructor
  · exact (app_service_lookup dbSuite bkOk uuidDemo 0 ⟨[]⟩
      ⟨[("db", ⟨"db", ⟨"net0"⟩, "id0"⟩)]⟩
      ⟨[.network ⟨"net0"⟩, .service ⟨"db", ⟨"net0"⟩, "id0"⟩]⟩ 3 rfl "db").mpr
      (by decide)
  · have h := app_service_lookup dbSuite bkOk uuidDemo 0 ⟨[]⟩
      ⟨[("db", ⟨"db", ⟨"net0"⟩, "id0"⟩)]⟩
      ⟨[.network ⟨"net0"⟩, .service ⟨"db", ⟨"net0"⟩, "id0"⟩]⟩ 3 rfl "api"
    rw [Bool.eq_false_iff]
    intro hc
    exact absurd (h.mp hc) (by decide)

end Octopod
